import Mathlib

/-!
Verification development for the `reredis` server (an in-memory key-value
store speaking the RESP wire protocol).

The Rust sources are shallowly embedded:

* `src/parser.rs`  → the `Resp` frame type, `parse`, `read_line`,
  `parse_simple`, `parse_error`, `parse_integer`, `parse_bulk`, `parse_array`.
  Rust `String` values are represented by their UTF-8 byte sequences
  (`List Nat`); `String::from_utf8` becomes a UTF-8 validity check on the
  bytes, `String::from_utf8_lossy` becomes `utf8Lossy`.
* `src/storage.rs`  → `Value`, `Entry`, `Storage` (the `HashMap` behind the
  lock is modelled as an association list with unique keys), and the
  operations the claims touch: `get`, `set`, `set_with_expiry`, `ttl`,
  `del`, `incr_by`, `lrange`, `keys`, `glob_match`.  `Instant::now()` is
  modelled by an explicit `now : Nat` argument (milliseconds).
* `src/commands.rs` → `Command`, `Command.from_resp`, `cmd_set`, `cmd_keys`,
  `encode_resp`.
* `src/main.rs`     → `sessionStep`, the body of the inner loop of
  `handle_client` (one attempt to decode and dispatch from the accumulated
  buffer).
-/

/-- ASCII bytes of a literal (every character used is below 128). -/
def bytesOfAscii (s : String) : List Nat := s.data.map Char.toNat

/-- Protocol frame type, from `src/parser.rs` (`enum Resp`).  Payload
`String`s are represented by their UTF-8 byte sequences. -/
inductive Resp where
  | simple (s : List Nat)
  | error (s : List Nat)
  | integer (n : Int)
  | bulk (s : Option (List Nat))
  | array (items : Option (List Resp))

/-- `read_line` from `src/parser.rs`: scan for the first CRLF pair; return
the bytes before it and `i + 2` where `i` is its position. -/
def read_line : List Nat → Except String (List Nat × Nat)
  | a :: b :: rest =>
    if a = 13 ∧ b = 10 then .ok ([], 2)
    else
      match read_line (b :: rest) with
      | .ok (line, consumed) => .ok (a :: line, consumed + 1)
      | .error e => .error e
  | _ => .error "no CRLF found"

/-- Is `b` a UTF-8 continuation byte (`0x80..=0xBF`)? -/
def isCont (b : Nat) : Bool := 128 ≤ b && b ≤ 191

/-- Length (1..4) of the well-formed UTF-8 sequence starting at the head of
`l`, `none` if the head does not start one.  Standard table used by
`std::str::from_utf8`: ASCII; `C2..DF` + 1 continuation; `E0 A0..BF`,
`ED 80..9F`, other `E1..EF` + 2 continuations; `F0 90..BF`, `F4 80..8F`,
`F1..F3` + 3 continuations.  Missing bytes are read as 256, which fails
every byte-range test. -/
def utf8SeqLen (l : List Nat) : Option Nat :=
  if l.getD 0 256 ≤ 127 then some 1
  else if (194 ≤ l.getD 0 256 && l.getD 0 256 ≤ 223) && isCont (l.getD 1 256) then some 2
  else if l.getD 0 256 = 224 && (160 ≤ l.getD 1 256 && l.getD 1 256 ≤ 191)
          && isCont (l.getD 2 256) then some 3
  else if ((225 ≤ l.getD 0 256 && l.getD 0 256 ≤ 236) || l.getD 0 256 = 238 || l.getD 0 256 = 239)
          && isCont (l.getD 1 256) && isCont (l.getD 2 256) then some 3
  else if l.getD 0 256 = 237 && (128 ≤ l.getD 1 256 && l.getD 1 256 ≤ 159)
          && isCont (l.getD 2 256) then some 3
  else if l.getD 0 256 = 240 && (144 ≤ l.getD 1 256 && l.getD 1 256 ≤ 191)
          && isCont (l.getD 2 256) && isCont (l.getD 3 256) then some 4
  else if (241 ≤ l.getD 0 256 && l.getD 0 256 ≤ 243)
          && isCont (l.getD 1 256) && isCont (l.getD 2 256)
          && isCont (l.getD 3 256) then some 4
  else if l.getD 0 256 = 244 && (128 ≤ l.getD 1 256 && l.getD 1 256 ≤ 143)
          && isCont (l.getD 2 256) && isCont (l.getD 3 256) then some 4
  else none

theorem utf8SeqLen_pos {l : List Nat} {k : Nat} (h : utf8SeqLen l = some k) : 1 ≤ k := by
  unfold utf8SeqLen at h
  split_ifs at h <;> simp_all <;> omega

/-- First-continuation test for the lead byte `b` (used to compute the
length of a maximal ill-formed subpart, as `from_utf8_lossy` does). -/
def utf8FirstContOk (b c : Nat) : Bool :=
  if b = 224 then 160 ≤ c && c ≤ 191
  else if b = 237 then 128 ≤ c && c ≤ 159
  else if b = 240 then 144 ≤ c && c ≤ 191
  else if b = 244 then 128 ≤ c && c ≤ 143
  else isCont c

/-- How many bytes the lossy conversion skips at an ill-formed position:
the maximal subpart of a valid sequence starting there (always ≥ 1). -/
def utf8BadSkip (l : List Nat) : Nat :=
  if (224 ≤ l.getD 0 256 && l.getD 0 256 ≤ 239)
      && utf8FirstContOk (l.getD 0 256) (l.getD 1 256) then 2
  else if (240 ≤ l.getD 0 256 && l.getD 0 256 ≤ 244)
      && utf8FirstContOk (l.getD 0 256) (l.getD 1 256)
      && isCont (l.getD 2 256) then 3
  else if (240 ≤ l.getD 0 256 && l.getD 0 256 ≤ 244)
      && utf8FirstContOk (l.getD 0 256) (l.getD 1 256) then 2
  else 1

theorem utf8BadSkip_pos (l : List Nat) : 1 ≤ utf8BadSkip l := by
  unfold utf8BadSkip
  split_ifs <;> omega

/-- Model of `std::str::from_utf8` / `String::from_utf8` succeeding on `l`:
`l` is a well-formed UTF-8 byte sequence. -/
def validUtf8 (l : List Nat) : Bool :=
  match l with
  | [] => true
  | b :: rest =>
    match h : utf8SeqLen (b :: rest) with
    | some k => validUtf8 ((b :: rest).drop k)
    | none => false
termination_by l.length
decreasing_by
  have hk := utf8SeqLen_pos h
  simp only [List.length_drop, List.length_cons]
  omega

/-- The three bytes of U+FFFD, the replacement character. -/
def replChar : List Nat := [239, 191, 189]

/-- Model of `String::from_utf8_lossy(..).to_string()`: copy each
well-formed sequence; replace each maximal ill-formed subpart with U+FFFD
and resume right after it. -/
def utf8Lossy (l : List Nat) : List Nat :=
  match l with
  | [] => []
  | b :: rest =>
    match h : utf8SeqLen (b :: rest) with
    | some k => (b :: rest).take k ++ utf8Lossy ((b :: rest).drop k)
    | none => replChar ++ utf8Lossy ((b :: rest).drop (utf8BadSkip (b :: rest)))
termination_by l.length
decreasing_by
  · have hk := utf8SeqLen_pos h
    simp only [List.length_drop, List.length_cons]
    omega
  · have hk := utf8BadSkip_pos (b :: rest)
    simp only [List.length_drop, List.length_cons]
    omega

/-- On well-formed UTF-8 input the lossy conversion is the identity (so
`String::from_utf8_lossy` of a slice that came from a `String` copies it
unchanged). -/
theorem utf8Lossy_of_valid : ∀ l : List Nat, validUtf8 l = true → utf8Lossy l = l := by
  intro l
  induction l using utf8Lossy.induct with
  | case1 =>
    intro _
    rw [utf8Lossy]
  | case2 b rest k hk ih =>
    intro h
    rw [validUtf8] at h
    rw [utf8Lossy]
    split
    · next k2 hk2 =>
      rw [hk2] at hk
      cases hk
      split at h
      · next k3 hk3 =>
        rw [hk3] at hk2
        cases hk2
        rw [ih h, List.take_append_drop]
      · next hk3 => rw [hk3] at hk2; cases hk2
    · next hk2 => rw [hk2] at hk; cases hk
  | case3 b rest hk _ =>
    intro h
    rw [validUtf8] at h
    split at h
    · next k3 hk3 => rw [hk3] at hk; cases hk
    · cases h

/-- A list whose head byte is ASCII starts a length-1 sequence. -/
theorem utf8SeqLen_ascii (b : Nat) (rest : List Nat) (hb : b ≤ 127) :
    utf8SeqLen (b :: rest) = some 1 := by
  unfold utf8SeqLen
  rw [if_pos (by simpa using hb)]

/-- Bytes that are all ASCII form valid UTF-8. -/
theorem validUtf8_of_ascii : ∀ l : List Nat, (∀ b ∈ l, b ≤ 127) → validUtf8 l = true := by
  intro l
  induction l using validUtf8.induct with
  | case1 => intro _; rw [validUtf8]
  | case2 b rest k hk ih =>
    intro h
    have hb : b ≤ 127 := h b (by simp)
    have hk1 : k = 1 := by
      rw [utf8SeqLen_ascii b rest hb] at hk
      simpa using hk.symm
    rw [validUtf8]
    split
    · next k2 hk2 =>
      rw [hk2] at hk
      cases hk
      subst hk1
      exact ih (fun x hx => h x (by simpa using List.mem_of_mem_drop hx))
    · next hk2 => rw [hk2] at hk; cases hk
  | case3 b rest hk =>
    intro h
    have hb : b ≤ 127 := h b (by simp)
    rw [utf8SeqLen_ascii b rest hb] at hk
    cases hk

/-- ASCII decimal digits of a natural number (model of Rust's
`usize`/`u64` Display, used via `format!`). -/
def natDecBytes (n : Nat) : List Nat :=
  if h : n < 10 then [48 + n]
  else natDecBytes (n / 10) ++ [48 + n % 10]
termination_by n
decreasing_by exact Nat.div_lt_self (by omega) (by omega)

/-- ASCII decimal text of a signed integer (model of Rust's `i64`
Display: a minus sign followed by the digits of the magnitude). -/
def intDecBytes (v : Int) : List Nat :=
  if v < 0 then 45 :: natDecBytes v.natAbs else natDecBytes v.toNat

theorem natDecBytes_ne_nil (n : Nat) : natDecBytes n ≠ [] := by
  rw [natDecBytes]
  split <;> simp

theorem natDecBytes_mem (n : Nat) : ∀ b ∈ natDecBytes n, 48 ≤ b ∧ b ≤ 57 := by
  induction n using natDecBytes.induct with
  | case1 n h =>
    rw [natDecBytes, dif_pos h]
    intro b hb
    simp at hb
    omega
  | case2 n h ih =>
    rw [natDecBytes, dif_neg h]
    intro b hb
    rcases List.mem_append.mp hb with h1 | h1
    · exact ih b h1
    · simp at h1
      have := Nat.mod_lt n (show 0 < 10 by omega)
      omega

theorem intDecBytes_mem (v : Int) : ∀ b ∈ intDecBytes v, (48 ≤ b ∧ b ≤ 57) ∨ b = 45 := by
  unfold intDecBytes
  split
  · intro b hb
    rcases List.mem_cons.mp hb with h1 | h1
    · right; exact h1
    · left; exact natDecBytes_mem _ b h1
  · intro b hb
    left; exact natDecBytes_mem _ b hb

/-- Value of one ASCII digit byte, if it is one (`0x30..=0x39`). -/
def digitVal (b : Nat) : Option Nat :=
  if 48 ≤ b ∧ b ≤ 57 then some (b - 48) else none

/-- Accumulating decimal reader over digit bytes.  Fails on any non-digit. -/
def parseDigitsAux : List Nat → Nat → Option Nat
  | [], acc => some acc
  | b :: rest, acc =>
    match digitVal b with
    | some d => parseDigitsAux rest (acc * 10 + d)
    | none => none

/-- Decimal reader requiring at least one digit (core of Rust's
`str::parse` for unsigned magnitudes; range checks are applied by the
callers, which is outcome-equal to Rust's checked accumulation). -/
def parseDigits : List Nat → Option Nat
  | [] => none
  | b :: rest => parseDigitsAux (b :: rest) 0

theorem parseDigitsAux_append (l1 l2 : List Nat) (acc : Nat) :
    parseDigitsAux (l1 ++ l2) acc =
      match parseDigitsAux l1 acc with
      | some m => parseDigitsAux l2 m
      | none => none := by
  induction l1 generalizing acc with
  | nil => simp [parseDigitsAux]
  | cons b rest ih =>
    simp only [List.cons_append, parseDigitsAux]
    cases digitVal b with
    | some d => exact ih _
    | none => rfl

theorem parseDigitsAux_natDecBytes (n : Nat) :
    ∀ acc, parseDigitsAux (natDecBytes n) acc =
      some (acc * 10 ^ (natDecBytes n).length + n) := by
  induction n using natDecBytes.induct with
  | case1 n h =>
    intro acc
    rw [natDecBytes, dif_pos h]
    simp only [parseDigitsAux, digitVal, List.length_singleton]
    rw [if_pos (show 48 ≤ 48 + n ∧ 48 + n ≤ 57 by omega)]
    simp only [parseDigitsAux]
    congr 1
    rw [pow_one]
    omega
  | case2 n h ih =>
    intro acc
    rw [natDecBytes, dif_neg h]
    rw [parseDigitsAux_append, ih acc]
    have hm : n % 10 < 10 := Nat.mod_lt n (by omega)
    simp only [parseDigitsAux, digitVal, List.length_append, List.length_singleton]
    rw [if_pos (by omega)]
    simp only [parseDigitsAux]
    congr 1
    have : 48 + n % 10 - 48 = n % 10 := by omega
    rw [this, pow_succ]
    have hdm := Nat.div_add_mod n 10
    ring_nf
    omega

theorem parseDigits_natDecBytes (n : Nat) :
    parseDigits (natDecBytes n) = some n := by
  have hne := natDecBytes_ne_nil n
  rcases hl : natDecBytes n with _ | ⟨b, rest⟩
  · exact absurd hl hne
  · have := parseDigitsAux_natDecBytes n 0
    rw [hl] at this
    simpa [parseDigits] using this

/-- `i64::MIN` and `i64::MAX`. -/
def I64_MIN : Int := -(2 ^ 63)
def I64_MAX : Int := 2 ^ 63 - 1

/-- Model of `str::parse::<i64>()` (and of `parse::<isize>()`, identical
on a 64-bit target) applied to the bytes of the string: an optional sign
followed by at least one ASCII digit, rejecting values outside the `i64`
range.  Non-ASCII bytes are never digits, so byte-level reading agrees
with Rust's char-level reading. -/
def parseI64 (l : List Nat) : Option Int :=
  match l with
  | [] => none
  | b :: rest =>
    if b = 43 then
      (parseDigits rest).bind fun m =>
        if (m : Int) ≤ I64_MAX then some (m : Int) else none
    else if b = 45 then
      (parseDigits rest).bind fun m =>
        if I64_MIN ≤ -(m : Int) then some (-(m : Int)) else none
    else
      (parseDigits (b :: rest)).bind fun m =>
        if (m : Int) ≤ I64_MAX then some (m : Int) else none

/-- Model of `str::parse::<u64>()` on the bytes of the string. -/
def parseU64 (l : List Nat) : Option Nat :=
  match l with
  | [] => none
  | b :: rest =>
    if b = 43 then
      (parseDigits rest).bind fun m => if m < 2 ^ 64 then some m else none
    else
      (parseDigits (b :: rest)).bind fun m => if m < 2 ^ 64 then some m else none

theorem parseI64_neg_digits (l : List Nat) :
    parseI64 (45 :: l) =
      (parseDigits l).bind fun m =>
        if I64_MIN ≤ -(m : Int) then some (-(m : Int)) else none := by
  simp [parseI64]

theorem parseI64_other_digits (b : Nat) (rest : List Nat) (h43 : b ≠ 43) (h45 : b ≠ 45) :
    parseI64 (b :: rest) =
      (parseDigits (b :: rest)).bind fun m =>
        if (m : Int) ≤ I64_MAX then some (m : Int) else none := by
  simp [parseI64, h43, h45]

/-- Reading back the decimal text of an in-range integer recovers it. -/
theorem parseI64_intDecBytes (v : Int) (hlo : I64_MIN ≤ v) (hhi : v ≤ I64_MAX) :
    parseI64 (intDecBytes v) = some v := by
  unfold intDecBytes
  split
  · next hneg =>
    rw [parseI64_neg_digits, parseDigits_natDecBytes]
    simp only [Option.bind]
    rw [if_pos (by omega)]
    congr 1
    omega
  · next hneg =>
    have hv0 : 0 ≤ v := by omega
    rcases hl : natDecBytes v.toNat with _ | ⟨b, rest⟩
    · exact absurd hl (natDecBytes_ne_nil _)
    · have hb : 48 ≤ b ∧ b ≤ 57 := natDecBytes_mem v.toNat b (by rw [hl]; simp)
      rw [parseI64_other_digits b rest (by omega) (by omega), ← hl,
        parseDigits_natDecBytes]
      simp only [Option.bind]
      rw [if_pos (by omega)]
      congr 1
      omega

/-- `parse_simple` from `src/parser.rs`, applied to `input[1..]` (the
caller `parse` strips the `+` type byte; `consumed + 1` accounts for it).
`String::from_utf8` is the UTF-8 validity check. -/
def parse_simple (tail : List Nat) : Except String (Resp × Nat) :=
  match read_line tail with
  | .error e => .error e
  | .ok (line, consumed) =>
    if validUtf8 line then .ok (.simple line, consumed + 1) else .error "utf8"

/-- `parse_error` from `src/parser.rs`, applied to `input[1..]`. -/
def parse_error (tail : List Nat) : Except String (Resp × Nat) :=
  match read_line tail with
  | .error e => .error e
  | .ok (line, consumed) =>
    if validUtf8 line then .ok (.error line, consumed + 1) else .error "utf8"

/-- `parse_integer` from `src/parser.rs`, applied to `input[1..]`. -/
def parse_integer (tail : List Nat) : Except String (Resp × Nat) :=
  match read_line tail with
  | .error e => .error e
  | .ok (line, consumed) =>
    if validUtf8 line then
      match parseI64 line with
      | some n => .ok (.integer n, consumed + 1)
      | none => .error "parse int"
    else .error "utf8"

/-- `parse_bulk` from `src/parser.rs`, applied to `input[1..]`.  With the
whole buffer `input = dollar :: tail`, Rust's `offset` is `consumed + 1`,
`start = offset`, `end = start + len`; `input[start..end]` is
`(tail.drop consumed).take len`, the guard `input.len() < end + 2` is
`tail.length + 1 < consumed + 1 + len + 2`, and the returned count
`end + 2` is `consumed + len + 3`.  A length below `-1` is cast to
`usize` as `2 ^ 64 + len`; the Rust code then panics exactly when
`start + len ≥ -2`: for `start + len ≥ 0` the addition `start + len`
overflows in debug and in release wraps to `end < start ≤ input.len()`,
so the guard passes and the backwards slice `input[start..end]` panics;
for `start + len` equal to `-2` or `-1` it is `end + 2` that overflows in debug,
while release wraps it to `start + len + 2 ≤ 1 ≤ input.len()`, the guard
passes and the slice end `2 ^ 64 + start + len` is out of bounds.  For
`start + len ≤ -3` nothing overflows, `end + 2` is astronomically large
and the guard reports the incomplete-bulk error.  The model marks the
panic cases with a distinguished `panic:` message that `sessionStep`
turns into the unwinding of the task.  Note the two bytes after the
payload are skipped, not checked. -/
def parse_bulk (tail : List Nat) : Except String (Resp × Nat) :=
  match read_line tail with
  | .error e => .error e
  | .ok (line, consumed) =>
    if validUtf8 line then
      match parseI64 line with
      | some len =>
        if len = -1 then .ok (.bulk none, consumed + 1)
        else if len < 0 then
          (if (-2 : Int) ≤ (consumed : Int) + 1 + len then
            .error "panic: negative bulk length"
           else .error "incomplete bulk")
        else if tail.length + 1 < consumed + 1 + len.toNat + 2 then .error "incomplete bulk"
        else .ok (.bulk (some (utf8Lossy ((tail.drop consumed).take len.toNat))),
                  consumed + len.toNat + 3)
      | none => .error "parse len"
    else .error "utf8"

mutual

/-- `parse` from `src/parser.rs`: dispatch on the first byte
(`+` 43, `-` 45, `:` 58, `$` 36, `*` 42). -/
def parse (buff : List Nat) : Except String (Resp × Nat) :=
  match buff with
  | [] => .error "empty input"
  | b :: rest =>
    if b = 43 then parse_simple rest
    else if b = 45 then parse_error rest
    else if b = 58 then parse_integer rest
    else if b = 36 then parse_bulk rest
    else if b = 42 then parse_array rest
    else .error "unknown type"
termination_by (buff.length, 2, 0)

/-- `parse_array` from `src/parser.rs`, applied to `input[1..]`.  Rust's
`total` starts at `offset = consumed + 1` (absolute in `input`), so the
children are decoded from `input.drop (consumed + 1) = tail.drop consumed`
and the returned count is `consumed + 1 + used`.  A length below `-1`
is cast to a `usize` capacity of at least `2 ^ 63`, so
`Vec::with_capacity(len as usize)` unconditionally panics on capacity
overflow before any element is decoded; the model marks exactly those
inputs with a distinguished `panic:` message that `sessionStep` turns
into the unwinding of the task. -/
def parse_array (tail : List Nat) : Except String (Resp × Nat) :=
  match read_line tail with
  | .error e => .error e
  | .ok (line, consumed) =>
    if validUtf8 line then
      match parseI64 line with
      | some len =>
        if len = -1 then .ok (.array none, consumed + 1)
        else if len < 0 then .error "panic: capacity overflow"
        else
          match parseList len.toNat (tail.drop consumed) with
          | .ok (items, used) => .ok (.array (some items), consumed + 1 + used)
          | .error e => .error e
      | none => .error "parse len"
    else .error "utf8"
termination_by (tail.length + 1, 1, 0)

/-- The `for _ in 0..len` loop of `parse_array`: decode `count` children,
each from the bytes left by the previous one, summing consumed bytes. -/
def parseList (count : Nat) (input : List Nat) : Except String (List Resp × Nat) :=
  match count with
  | 0 => .ok ([], 0)
  | n + 1 =>
    match parse input with
    | .error e => .error e
    | .ok (v, used) =>
      match parseList n (input.drop used) with
      | .error e => .error e
      | .ok (items, used2) => .ok (v :: items, used + used2)
termination_by (input.length, 3, count)
decreasing_by
  · apply Prod.Lex.right
    exact Prod.Lex.left _ _ (by omega)
  · have hle : (input.drop used).length ≤ input.length := by
      simp [List.length_drop]
    rcases Nat.lt_or_eq_of_le hle with hlt | heq
    · exact Prod.Lex.left _ _ hlt
    · rw [heq]
      apply Prod.Lex.right
      exact Prod.Lex.right _ (by omega)

end

mutual

/-- `encode_resp` from `src/commands.rs`: serialize a frame
(`+` 43, `-` 45, `:` 58, `$` 36, `*` 42, CRLF = 13 10). -/
def encode_resp : Resp → List Nat
  | .simple s => 43 :: (s ++ [13, 10])
  | .error s => 45 :: (s ++ [13, 10])
  | .integer n => 58 :: (intDecBytes n ++ [13, 10])
  | .bulk none => [36, 45, 49, 13, 10]
  | .bulk (some s) => 36 :: (natDecBytes s.length ++ [13, 10] ++ s ++ [13, 10])
  | .array none => [42, 45, 49, 13, 10]
  | .array (some items) => 42 :: (natDecBytes items.length ++ [13, 10] ++ encodeList items)

/-- The `for item in items` loop of `encode_resp`. -/
def encodeList : List Resp → List Nat
  | [] => []
  | x :: xs => encode_resp x ++ encodeList xs

end

/-- No adjacent CR LF pair inside `l` (the scan of `read_line` finds
nothing before an appended terminator). -/
def noCRLFpair : List Nat → Bool
  | a :: b :: rest => !(a == 13 && b == 10) && noCRLFpair (b :: rest)
  | _ => true

theorem noCRLFpair_of_no13 : ∀ l : List Nat, (∀ b ∈ l, b ≠ 13) → noCRLFpair l = true := by
  intro l h
  induction l with
  | nil => rfl
  | cons a rest ih =>
    cases rest with
    | nil => rfl
    | cons b rest2 =>
      have ha : a ≠ 13 := h a (by simp)
      have hr : noCRLFpair (b :: rest2) = true :=
        ih (fun x hx => h x (List.mem_cons_of_mem _ hx))
      simp [noCRLFpair, hr, ha]

/-- `read_line` finds an appended CRLF terminator right after a pair-free
line, returning the line and its length plus two. -/
theorem read_line_append_crlf :
    ∀ (L : List Nat), noCRLFpair L = true → ∀ t : List Nat,
      read_line (L ++ 13 :: 10 :: t) = .ok (L, L.length + 2) := by
  intro L
  induction L with
  | nil =>
    intro _ t
    simp [read_line]
  | cons x L' ih =>
    intro h t
    cases L' with
    | nil =>
      rw [List.cons_append, List.nil_append]
      rw [read_line]
      rw [if_neg (by simp)]
      simp [read_line]
    | cons y L'' =>
      have hxy : ¬(x = 13 ∧ y = 10) := by
        simp only [noCRLFpair] at h
        rcases Bool.and_eq_true_iff.mp h with ⟨h1, _⟩
        intro hc
        simp [hc.1, hc.2] at h1
      have hL' : noCRLFpair (y :: L'') = true := by
        simp only [noCRLFpair] at h
        exact (Bool.and_eq_true_iff.mp h).2
      rw [List.cons_append]
      have hne : (y :: L'') ++ 13 :: 10 :: t = y :: (L'' ++ 13 :: 10 :: t) := by simp
      rw [hne, read_line, if_neg hxy, ← hne, ih hL' t]
      simp [List.length_cons]

/-- Successful `read_line` structure: the consumed count is the line
length plus two, and the input decomposes as line, CRLF, remainder. -/
theorem read_line_spec :
    ∀ (l L : List Nat) (n : Nat), read_line l = .ok (L, n) →
      n = L.length + 2 ∧ l = L ++ 13 :: 10 :: l.drop n := by
  intro l
  induction l using read_line.induct with
  | case1 a b rest hab =>
    intro L n h
    rw [read_line, if_pos hab] at h
    cases h
    obtain ⟨rfl, rfl⟩ := hab
    simp
  | case2 a b rest hab line consumed hrec ih =>
    intro L n h
    rw [read_line, if_neg hab, hrec] at h
    cases h
    obtain ⟨h1, h2⟩ := ih line consumed hrec
    constructor
    · simp [h1]
    · calc a :: b :: rest = a :: (line ++ 13 :: 10 :: (b :: rest).drop consumed) := by
            rw [← h2]
        _ = (a :: line) ++ 13 :: 10 :: (a :: b :: rest).drop (consumed + 1) := by
            simp [List.drop_succ_cons]
  | case3 a b rest hab e hrec ih =>
    intro L n h
    rw [read_line, if_neg hab, hrec] at h
    cases h
  | case4 l hl =>
    intro L n h
    have : read_line l = .error "no CRLF found" := by
      cases l with
      | nil => rfl
      | cons a tail =>
        cases tail with
        | nil => rfl
        | cons b rest => exact absurd rfl (hl a b rest)
    rw [this] at h
    cases h

/-- Appending bytes does not change a successful `read_line`. -/
theorem read_line_append :
    ∀ (l s L : List Nat) (n : Nat), read_line l = .ok (L, n) →
      read_line (l ++ s) = .ok (L, n) := by
  intro l
  induction l using read_line.induct with
  | case1 a b rest hab =>
    intro s L n h
    rw [read_line, if_pos hab] at h
    cases h
    rw [List.cons_append, List.cons_append, read_line, if_pos hab]
  | case2 a b rest hab line consumed hrec ih =>
    intro s L n h
    rw [read_line, if_neg hab, hrec] at h
    cases h
    rw [List.cons_append, List.cons_append, read_line, if_neg hab]
    have := ih s line consumed hrec
    rw [List.cons_append] at this
    rw [this]
  | case3 a b rest hab e hrec ih =>
    intro s L n h
    rw [read_line, if_neg hab, hrec] at h
    cases h
  | case4 l hl =>
    intro s L n h
    have : read_line l = .error "no CRLF found" := by
      cases l with
      | nil => rfl
      | cons a tail =>
        cases tail with
        | nil => rfl
        | cons b rest => exact absurd rfl (hl a b rest)
    rw [this] at h
    cases h

theorem parse_head_plus (rest : List Nat) : parse (43 :: rest) = parse_simple rest := by
  simp [parse]

theorem parse_head_minus (rest : List Nat) : parse (45 :: rest) = parse_error rest := by
  simp [parse]

theorem parse_head_colon (rest : List Nat) : parse (58 :: rest) = parse_integer rest := by
  simp [parse]

theorem parse_head_dollar (rest : List Nat) : parse (36 :: rest) = parse_bulk rest := by
  simp [parse]

theorem parse_head_star (rest : List Nat) : parse (42 :: rest) = parse_array rest := by
  simp [parse]

theorem parse_head_other (b : Nat) (rest : List Nat)
    (h : b ≠ 43 ∧ b ≠ 45 ∧ b ≠ 58 ∧ b ≠ 36 ∧ b ≠ 42) :
    parse (b :: rest) = .error "unknown type" := by
  simp [parse, h.1, h.2.1, h.2.2.1, h.2.2.2.1, h.2.2.2.2]

theorem parse_nil_eq : parse [] = .error "empty input" := by
  simp [parse]

/-- Reading back the decimal text of a representable length recovers it. -/
theorem parseI64_natDecBytes (n : Nat) (h : (n : Int) ≤ I64_MAX) :
    parseI64 (natDecBytes n) = some (n : Int) := by
  rcases hl : natDecBytes n with _ | ⟨b, rest⟩
  · exact absurd hl (natDecBytes_ne_nil _)
  · have hb : 48 ≤ b ∧ b ≤ 57 := natDecBytes_mem n b (by rw [hl]; simp)
    rw [parseI64_other_digits b rest (by omega) (by omega), ← hl, parseDigits_natDecBytes]
    simp only [Option.bind]
    rw [if_pos h]

mutual

/-- Canonical form of a frame, as produced by the Rust `Resp` type:
simple/error lines contain no CR and no LF; every payload is a Rust
`String`, hence well-formed UTF-8; integers are `i64`; lengths are Rust
allocations, hence at most `isize::MAX`. -/
def canonW : Resp → Bool
  | .simple s => decide ((13 : Nat) ∉ s) && decide ((10 : Nat) ∉ s) && validUtf8 s
  | .error s => decide ((13 : Nat) ∉ s) && decide ((10 : Nat) ∉ s) && validUtf8 s
  | .integer n => decide (I64_MIN ≤ n) && decide (n ≤ I64_MAX)
  | .bulk none => true
  | .bulk (some s) => validUtf8 s && decide ((s.length : Int) ≤ I64_MAX)
  | .array none => true
  | .array (some items) => decide ((items.length : Int) ≤ I64_MAX) && canonListW items

def canonListW : List Resp → Bool
  | [] => true
  | x :: xs => canonW x && canonListW xs

end

theorem validUtf8_natDecBytes (n : Nat) : validUtf8 (natDecBytes n) = true :=
  validUtf8_of_ascii _ (fun b hb => by have := natDecBytes_mem n b hb; omega)

theorem noCRLFpair_natDecBytes (n : Nat) : noCRLFpair (natDecBytes n) = true :=
  noCRLFpair_of_no13 _ (fun b hb => by have := natDecBytes_mem n b hb; omega)

theorem validUtf8_intDecBytes (v : Int) : validUtf8 (intDecBytes v) = true :=
  validUtf8_of_ascii _ (fun b hb => by rcases intDecBytes_mem v b hb with h | h <;> omega)

theorem noCRLFpair_intDecBytes (v : Int) : noCRLFpair (intDecBytes v) = true :=
  noCRLFpair_of_no13 _ (fun b hb => by rcases intDecBytes_mem v b hb with h | h <;> omega)

/-- Dropping a line and its CRLF terminator leaves the remainder. -/
theorem drop_line (dl r : List Nat) :
    (dl ++ 13 :: 10 :: r).drop (dl.length + 2) = r := by
  have h1 : dl ++ 13 :: 10 :: r = (dl ++ [13, 10]) ++ r := by simp
  have h2 : dl.length + 2 = (dl ++ [13, 10]).length := by simp
  rw [h1, h2, List.drop_left]

mutual

/-- Decoding the encoding of a canonical frame, possibly followed by more
bytes, returns the frame and consumes exactly its encoding. -/
theorem parse_encode_suffix : ∀ (f : Resp), canonW f = true → ∀ t : List Nat,
    parse (encode_resp f ++ t) = .ok (f, (encode_resp f).length)
  | .simple s => by
    intro h t
    simp only [canonW, Bool.and_eq_true, decide_eq_true_eq] at h
    obtain ⟨⟨h13, _⟩, hutf⟩ := h
    have hno : noCRLFpair s = true :=
      noCRLFpair_of_no13 s (fun b hb hbe => h13 (hbe ▸ hb))
    have he : encode_resp (.simple s) ++ t = 43 :: (s ++ 13 :: 10 :: t) := by
      simp [encode_resp]
    rw [he, parse_head_plus]
    simp only [parse_simple, read_line_append_crlf s hno t, hutf, if_true]
    simp [encode_resp]
  | .error s => by
    intro h t
    simp only [canonW, Bool.and_eq_true, decide_eq_true_eq] at h
    obtain ⟨⟨h13, _⟩, hutf⟩ := h
    have hno : noCRLFpair s = true :=
      noCRLFpair_of_no13 s (fun b hb hbe => h13 (hbe ▸ hb))
    have he : encode_resp (.error s) ++ t = 45 :: (s ++ 13 :: 10 :: t) := by
      simp [encode_resp]
    rw [he, parse_head_minus]
    simp only [parse_error, read_line_append_crlf s hno t, hutf, if_true]
    simp [encode_resp]
  | .integer n => by
    intro h t
    simp only [canonW, Bool.and_eq_true, decide_eq_true_eq] at h
    obtain ⟨hlo, hhi⟩ := h
    have he : encode_resp (.integer n) ++ t = 58 :: (intDecBytes n ++ 13 :: 10 :: t) := by
      simp [encode_resp]
    rw [he, parse_head_colon]
    simp only [parse_integer, read_line_append_crlf _ (noCRLFpair_intDecBytes n) t,
      validUtf8_intDecBytes n, if_true, parseI64_intDecBytes n hlo hhi]
    simp [encode_resp]
  | .bulk none => by
    intro _ t
    have he : encode_resp (.bulk none) ++ t = 36 :: ([45, 49] ++ 13 :: 10 :: t) := by
      simp [encode_resp]
    rw [he, parse_head_dollar]
    have hpd : parseI64 [45, 49] = some (-1) := by decide
    simp only [parse_bulk, read_line_append_crlf [45, 49] (by decide) t,
      validUtf8_of_ascii [45, 49] (by decide), if_true, hpd]
    simp [encode_resp]
  | .bulk (some s) => by
    intro h t
    simp only [canonW, Bool.and_eq_true, decide_eq_true_eq] at h
    obtain ⟨hutf, hlen⟩ := h
    have he : encode_resp (.bulk (some s)) ++ t =
        36 :: (natDecBytes s.length ++ 13 :: 10 :: (s ++ 13 :: 10 :: t)) := by
      simp [encode_resp]
    rw [he, parse_head_dollar]
    simp only [parse_bulk,
      read_line_append_crlf _ (noCRLFpair_natDecBytes s.length) _,
      validUtf8_natDecBytes s.length, if_true,
      parseI64_natDecBytes s.length hlen]
    rw [if_neg (by omega), if_neg (by omega)]
    rw [if_neg (by
      simp only [List.length_append, List.length_cons, Int.toNat_natCast]
      omega)]
    rw [drop_line]
    simp only [Int.toNat_natCast, List.take_left, utf8Lossy_of_valid s hutf]
    simp [encode_resp]
    omega
  | .array none => by
    intro _ t
    have he : encode_resp (.array none) ++ t = 42 :: ([45, 49] ++ 13 :: 10 :: t) := by
      simp [encode_resp]
    rw [he, parse_head_star]
    have hpd : parseI64 [45, 49] = some (-1) := by decide
    simp only [parse_array, read_line_append_crlf [45, 49] (by decide) t,
      validUtf8_of_ascii [45, 49] (by decide), if_true, hpd]
    simp [encode_resp]
  | .array (some items) => by
    intro h t
    simp only [canonW, Bool.and_eq_true, decide_eq_true_eq] at h
    obtain ⟨hlen, hcl⟩ := h
    have he : encode_resp (.array (some items)) ++ t =
        42 :: (natDecBytes items.length ++ 13 :: 10 :: (encodeList items ++ t)) := by
      simp [encode_resp]
    rw [he, parse_head_star]
    simp only [parse_array,
      read_line_append_crlf _ (noCRLFpair_natDecBytes items.length) _,
      validUtf8_natDecBytes items.length, if_true,
      parseI64_natDecBytes items.length hlen]
    rw [if_neg (by omega), if_neg (by omega)]
    rw [drop_line]
    simp only [Int.toNat_natCast, parseList_encode_suffix items hcl t]
    simp [encode_resp]
    omega

/-- Decoding the concatenated encodings of canonical frames, possibly
followed by more bytes, returns the frames and consumes exactly the
concatenation. -/
theorem parseList_encode_suffix : ∀ (l : List Resp), canonListW l = true → ∀ t : List Nat,
    parseList l.length (encodeList l ++ t) = .ok (l, (encodeList l).length)
  | [] => by
    intro _ t
    simp [parseList, encodeList]
  | x :: xs => by
    intro h t
    simp only [canonListW, Bool.and_eq_true] at h
    obtain ⟨hx, hxs⟩ := h
    have he : encodeList (x :: xs) ++ t = encode_resp x ++ (encodeList xs ++ t) := by
      simp [encodeList]
    rw [List.length_cons, he, parseList]
    simp only [parse_encode_suffix x hx (encodeList xs ++ t), List.drop_left,
      parseList_encode_suffix xs hxs t]
    simp [encodeList]

end

/-- A successful `read_line` consumed at most the input. -/
theorem read_line_le {l L : List Nat} {c : Nat} (h : read_line l = .ok (L, c)) :
    c ≤ l.length := by
  obtain ⟨h1, h2⟩ := read_line_spec l L c h
  have h3 : l.length = L.length + 2 + (l.drop c).length := by
    conv_lhs => rw [h2]
    simp only [List.length_append, List.length_cons, List.length_drop]
    omega
  have h4 : (l.drop c).length = l.length - c := List.length_drop _ _
  omega

/-- Dropping within the left part of an append. -/
theorem drop_append_of_le (l s : List Nat) (j : Nat) (hj : j ≤ l.length) :
    (l ++ s).drop j = l.drop j ++ s := by
  rw [List.drop_append_eq_append_drop]
  have : j - l.length = 0 := by omega
  rw [this, List.drop_zero]

/-- A window that lies inside `l` is unchanged by appending `s`. -/
theorem take_drop_append (l s : List Nat) (j k : Nat) (h : j + k ≤ l.length) :
    ((l ++ s).drop j).take k = (l.drop j).take k := by
  rw [drop_append_of_le l s j (by omega), List.take_append_eq_append_take]
  have : k - (l.drop j).length = 0 := by
    have := List.length_drop j l
    omega
  rw [this, List.take_zero, List.append_nil]

/-- `parse_simple` consumed at most the input (plus type byte) and is
unchanged by appending bytes. -/
theorem parse_simple_extend (tail : List Nat) (f : Resp) (n : Nat)
    (h : parse_simple tail = .ok (f, n)) :
    n ≤ tail.length + 1 ∧ ∀ s, parse_simple (tail ++ s) = .ok (f, n) := by
  simp only [parse_simple] at h
  rcases hr : read_line tail with e | ⟨line, c⟩
  · simp only [hr, reduceCtorEq] at h
  · simp only [hr, reduceCtorEq] at h
    by_cases hv : validUtf8 line
    · rw [if_pos hv] at h
      cases h
      refine ⟨by have := read_line_le hr; omega, fun s => ?_⟩
      simp only [parse_simple, read_line_append tail s line c hr, if_pos hv]
    · rw [if_neg hv] at h; cases h

theorem parse_error_extend (tail : List Nat) (f : Resp) (n : Nat)
    (h : parse_error tail = .ok (f, n)) :
    n ≤ tail.length + 1 ∧ ∀ s, parse_error (tail ++ s) = .ok (f, n) := by
  simp only [parse_error] at h
  rcases hr : read_line tail with e | ⟨line, c⟩
  · simp only [hr, reduceCtorEq] at h
  · simp only [hr, reduceCtorEq] at h
    by_cases hv : validUtf8 line
    · rw [if_pos hv] at h
      cases h
      refine ⟨by have := read_line_le hr; omega, fun s => ?_⟩
      simp only [parse_error, read_line_append tail s line c hr, if_pos hv]
    · rw [if_neg hv] at h; cases h

theorem parse_integer_extend (tail : List Nat) (f : Resp) (n : Nat)
    (h : parse_integer tail = .ok (f, n)) :
    n ≤ tail.length + 1 ∧ ∀ s, parse_integer (tail ++ s) = .ok (f, n) := by
  simp only [parse_integer] at h
  rcases hr : read_line tail with e | ⟨line, c⟩
  · simp only [hr, reduceCtorEq] at h
  · simp only [hr, reduceCtorEq] at h
    by_cases hv : validUtf8 line
    · rw [if_pos hv] at h
      rcases hp : parseI64 line with _ | m
      · simp only [hp, reduceCtorEq] at h
      · simp only [hp, reduceCtorEq] at h
        cases h
        refine ⟨by have := read_line_le hr; omega, fun s => ?_⟩
        simp only [parse_integer, read_line_append tail s line c hr, if_pos hv, hp]
    · rw [if_neg hv] at h; cases h

theorem parse_bulk_extend (tail : List Nat) (f : Resp) (n : Nat)
    (h : parse_bulk tail = .ok (f, n)) :
    n ≤ tail.length + 1 ∧ ∀ s, parse_bulk (tail ++ s) = .ok (f, n) := by
  simp only [parse_bulk] at h
  rcases hr : read_line tail with e | ⟨line, c⟩
  · simp only [hr, reduceCtorEq] at h
  · simp only [hr, reduceCtorEq] at h
    by_cases hv : validUtf8 line
    · rw [if_pos hv] at h
      rcases hp : parseI64 line with _ | m
      · simp only [hp, reduceCtorEq] at h
      · simp only [hp, reduceCtorEq] at h
        by_cases hm1 : m = -1
        · rw [if_pos hm1] at h
          cases h
          refine ⟨by have := read_line_le hr; omega, fun s => ?_⟩
          simp only [parse_bulk, read_line_append tail s line c hr, if_pos hv, hp,
            if_pos hm1]
        · rw [if_neg hm1] at h
          by_cases hm0 : m < 0
          · rw [if_pos hm0] at h; split at h <;> cases h
          · rw [if_neg hm0] at h
            by_cases hg : tail.length + 1 < c + 1 + m.toNat + 2
            · rw [if_pos hg] at h; cases h
            · rw [if_neg hg] at h
              cases h
              refine ⟨by omega, fun s => ?_⟩
              simp only [parse_bulk, read_line_append tail s line c hr, if_pos hv, hp,
                if_neg hm1, if_neg hm0]
              rw [if_neg (by simp only [List.length_append]; omega)]
              rw [take_drop_append tail s c m.toNat (by omega)]
    · rw [if_neg hv] at h; cases h

mutual

/-- A successful `parse` consumed at most the buffer, and appending bytes
to the buffer never changes an already successful decode. -/
theorem parse_ok_extend : ∀ (bf : List Nat) (f : Resp) (n : Nat),
    parse bf = .ok (f, n) → n ≤ bf.length ∧ ∀ s, parse (bf ++ s) = .ok (f, n)
  | [] => by
    intro f n h
    rw [parse_nil_eq] at h
    cases h
  | hd :: rest => by
    intro f n h
    by_cases h43 : hd = 43
    · subst h43
      rw [parse_head_plus] at h
      obtain ⟨h1, h2⟩ := parse_simple_extend rest f n h
      refine ⟨by simpa using h1, fun s => ?_⟩
      rw [List.cons_append, parse_head_plus]
      exact h2 s
    · by_cases h45 : hd = 45
      · subst h45
        rw [parse_head_minus] at h
        obtain ⟨h1, h2⟩ := parse_error_extend rest f n h
        refine ⟨by simpa using h1, fun s => ?_⟩
        rw [List.cons_append, parse_head_minus]
        exact h2 s
      · by_cases h58 : hd = 58
        · subst h58
          rw [parse_head_colon] at h
          obtain ⟨h1, h2⟩ := parse_integer_extend rest f n h
          refine ⟨by simpa using h1, fun s => ?_⟩
          rw [List.cons_append, parse_head_colon]
          exact h2 s
        · by_cases h36 : hd = 36
          · subst h36
            rw [parse_head_dollar] at h
            obtain ⟨h1, h2⟩ := parse_bulk_extend rest f n h
            refine ⟨by simpa using h1, fun s => ?_⟩
            rw [List.cons_append, parse_head_dollar]
            exact h2 s
          · by_cases h42 : hd = 42
            · subst h42
              rw [parse_head_star] at h
              simp only [parse_array] at h
              rcases hr : read_line rest with e | ⟨line, c⟩
              · simp only [hr, reduceCtorEq] at h
              · simp only [hr, reduceCtorEq] at h
                by_cases hv : validUtf8 line
                · rw [if_pos hv] at h
                  rcases hp : parseI64 line with _ | m
                  · simp only [hp, reduceCtorEq] at h
                  · simp only [hp, reduceCtorEq] at h
                    by_cases hm1 : m = -1
                    · rw [if_pos hm1] at h
                      cases h
                      refine ⟨by have := read_line_le hr; simp; omega, fun s => ?_⟩
                      rw [List.cons_append, parse_head_star]
                      simp only [parse_array, read_line_append rest s line c hr,
                        if_pos hv, hp, if_pos hm1]
                    · rw [if_neg hm1] at h
                      by_cases hm0 : m < 0
                      · rw [if_pos hm0] at h; cases h
                      · rw [if_neg hm0] at h
                        rcases hpl : parseList m.toNat (rest.drop c) with e | ⟨items, used⟩
                        · simp only [hpl, reduceCtorEq] at h
                        · simp only [hpl, reduceCtorEq] at h
                          cases h
                          have hc := read_line_le hr
                          obtain ⟨hu1, hu2⟩ := parseList_ok_extend m.toNat (rest.drop c)
                            items used hpl
                          have hdl : (rest.drop c).length = rest.length - c :=
                            List.length_drop _ _
                          refine ⟨by simp; omega, fun s => ?_⟩
                          rw [List.cons_append, parse_head_star]
                          simp only [parse_array, read_line_append rest s line c hr,
                            if_pos hv, hp, if_neg hm1, if_neg hm0,
                            drop_append_of_le rest s c hc, hu2 s]
                · rw [if_neg hv] at h; cases h
            · rw [parse_head_other hd rest ⟨h43, h45, h58, h36, h42⟩] at h
              cases h
termination_by bf => (bf.length, 1, 0)
decreasing_by
  exact Prod.Lex.left _ _ (by simp only [List.length_drop, List.length_cons]; omega)

/-- A successful child-sequence decode consumed at most the buffer and is
unchanged by appending bytes. -/
theorem parseList_ok_extend : ∀ (cnt : Nat) (bf : List Nat) (items : List Resp) (n : Nat),
    parseList cnt bf = .ok (items, n) →
      n ≤ bf.length ∧ ∀ s, parseList cnt (bf ++ s) = .ok (items, n)
  | 0, bf => by
    intro items n h
    rw [parseList] at h
    cases h
    exact ⟨Nat.zero_le _, fun s => by rw [parseList]⟩
  | m + 1, bf => by
    intro items n h
    rw [parseList] at h
    rcases hp : parse bf with e | ⟨v, used⟩
    · simp only [hp, reduceCtorEq] at h
    · simp only [hp, reduceCtorEq] at h
      rcases hpl : parseList m (bf.drop used) with e | ⟨items2, used2⟩
      · simp only [hpl, reduceCtorEq] at h
      · simp only [hpl, reduceCtorEq] at h
        cases h
        obtain ⟨h1, h2⟩ := parse_ok_extend bf v used hp
        obtain ⟨h3, h4⟩ := parseList_ok_extend m (bf.drop used) items2 used2 hpl
        have hdl : (bf.drop used).length = bf.length - used := List.length_drop _ _
        refine ⟨by omega, fun s => ?_⟩
        rw [parseList]
        simp only [h2 s, drop_append_of_le bf s used h1, h4 s, reduceCtorEq]
termination_by cnt bf => (bf.length, 2, cnt)
decreasing_by
  · apply Prod.Lex.right
    exact Prod.Lex.left _ _ (by omega)
  · have hle : (bf.drop used).length ≤ bf.length := by simp [List.length_drop]
    rcases Nat.lt_or_eq_of_le hle with hlt | heq
    · exact Prod.Lex.left _ _ hlt
    · rw [heq]
      apply Prod.Lex.right
      exact Prod.Lex.right _ (by omega)

end

/-- C1: For every frame f in canonical form (SimpleString/Error lines
without CR/LF, bulks and arrays of any length), decoding the bytes
produced by the encoder yields exactly (f, len(encode(f))):
parse(encode_resp(f)) = Ok((f, |encode_resp(f)|)). -/
theorem c1_decode_encode_roundtrip (f : Resp) (h : canonW f = true) :
    parse (encode_resp f) = .ok (f, (encode_resp f).length) := by
  have := parse_encode_suffix f h []
  simpa using this

theorem c1_decode_encode_roundtrip_witness :
    canonW (.array (some [.bulk (some [104, 105]), .integer (-5), .simple [79, 75],
      .bulk none, .array none])) = true ∧
    parse (encode_resp (.array (some [.bulk (some [104, 105]), .integer (-5),
      .simple [79, 75], .bulk none, .array none]))) =
      .ok (.array (some [.bulk (some [104, 105]), .integer (-5), .simple [79, 75],
        .bulk none, .array none]),
        (encode_resp (.array (some [.bulk (some [104, 105]), .integer (-5),
          .simple [79, 75], .bulk none, .array none]))).length) :=
  have h : canonW (.array (some [.bulk (some [104, 105]), .integer (-5), .simple [79, 75],
      .bulk none, .array none])) = true := by
    simp [canonW, canonListW, I64_MIN, I64_MAX,
      validUtf8_of_ascii [104, 105] (by decide), validUtf8_of_ascii [79, 75] (by decide)]
  ⟨h, c1_decode_encode_roundtrip _ h⟩

/-- C2: The decoder is prefix-deterministic: for every byte buffer b, if
parse(b) succeeds with result (f, n), then for every suffix s,
parse(b ++ s) succeeds with the same result (f, n); appending bytes never
changes an already-returned successful decode. -/
theorem c2_parse_append_stable (b s : List Nat) (f : Resp) (n : Nat)
    (h : parse b = .ok (f, n)) : parse (b ++ s) = .ok (f, n) :=
  (parse_ok_extend b f n h).2 s

theorem c2_parse_append_stable_witness :
    parse [43, 79, 75, 13, 10] = .ok (.simple [79, 75], 5) ∧
    parse ([43, 79, 75, 13, 10] ++ [88, 89]) = .ok (.simple [79, 75], 5) :=
  have h : parse [43, 79, 75, 13, 10] = .ok (.simple [79, 75], 5) := by
    rw [show [43, 79, 75, 13, 10] = 43 :: ([79, 75] ++ 13 :: 10 :: ([] : List Nat)) from rfl,
      parse_head_plus]
    simp only [parse_simple, read_line_append_crlf [79, 75] (by rfl) [],
      validUtf8_of_ascii [79, 75] (by decide), if_true]
    rfl
  ⟨h, c2_parse_append_stable _ [88, 89] _ _ h⟩

/-- C6 counterexample: a bulk whose two trailing bytes are not CRLF still
decodes successfully (the decoder never validates them), contradicting
the claim that such a buffer is Malformed:
`$2\r\nabZZ` decodes to Bulk("ab") consuming all 8 bytes. -/
theorem c6_counterexample_trailing_bytes :
    parse [36, 50, 13, 10, 97, 98, 90, 90] = .ok (.bulk (some [97, 98]), 8) := by
  rw [show [36, 50, 13, 10, 97, 98, 90, 90] =
      36 :: ([50] ++ 13 :: 10 :: [97, 98, 90, 90]) from rfl, parse_head_dollar]
  simp only [parse_bulk, read_line_append_crlf [50] (by rfl) _,
    validUtf8_of_ascii [50] (by decide), if_true,
    show parseI64 [50] = some 2 from by decide]
  rw [if_neg (by omega), if_neg (by omega), if_neg (by simp)]
  rw [show List.take (Int.toNat 2) (List.drop ([50].length + 2) ([50] ++ [13, 10, 97, 98, 90, 90]))
      = [97, 98] from rfl]
  rw [utf8Lossy_of_valid [97, 98] (validUtf8_of_ascii [97, 98] (by decide))]
  rfl

/-- C6 (amended): for a bulk of declared length L ≥ 0, a successful decode
requires at least L+2 bytes after the length line; the decoder consumes
the L payload bytes plus two more bytes without validating that those two
are CRLF; with fewer than L+2 bytes after the length line it fails
("incomplete bulk"). -/
theorem c6_bulk_exact_length_amended (L : Nat) (tl : List Nat) (hL : (L : Int) ≤ I64_MAX) :
    (L + 2 ≤ tl.length →
      parse (36 :: (natDecBytes L ++ 13 :: 10 :: tl)) =
        .ok (.bulk (some (utf8Lossy (tl.take L))), (natDecBytes L).length + L + 5)) ∧
    (tl.length < L + 2 →
      parse (36 :: (natDecBytes L ++ 13 :: 10 :: tl)) = .error "incomplete bulk") := by
  rw [parse_head_dollar]
  simp only [parse_bulk, read_line_append_crlf _ (noCRLFpair_natDecBytes L) tl,
    validUtf8_natDecBytes L, if_true, parseI64_natDecBytes L hL]
  constructor
  · intro hlen
    rw [if_neg (by omega), if_neg (by omega)]
    rw [if_neg (by simp only [List.length_append, List.length_cons, Int.toNat_natCast]; omega)]
    rw [drop_line]
    simp only [Int.toNat_natCast]
    have hcount : (natDecBytes L).length + 2 + L + 3 = (natDecBytes L).length + L + 5 := by
      omega
    rw [hcount]
  · intro hlen
    rw [if_neg (by omega), if_neg (by omega)]
    rw [if_pos (by simp only [List.length_append, List.length_cons, Int.toNat_natCast]; omega)]

theorem c6_bulk_exact_length_amended_witness :
    ((2 : Nat) : Int) ≤ I64_MAX ∧ 2 + 2 ≤ [97, 98, 90, 90].length ∧
    parse (36 :: (natDecBytes 2 ++ 13 :: 10 :: [97, 98, 90, 90])) =
      .ok (.bulk (some (utf8Lossy ([97, 98, 90, 90].take 2))), (natDecBytes 2).length + 2 + 5) :=
  ⟨by decide, by decide,
    (c6_bulk_exact_length_amended 2 [97, 98, 90, 90] (by decide)).1 (by decide)⟩

theorem validUtf8_single_255 : validUtf8 [255] = false := by
  rw [validUtf8]
  split
  · next k hk => rw [show utf8SeqLen [255] = none from by decide] at hk; cases hk
  · rfl

/-- C7 counterexample: decoding a SimpleString whose line is not valid
UTF-8 fails with a utf8 error (so the codec does validate UTF-8),
contradicting the claim that `+` ++ line ++ CRLF always succeeds:
`+\xFF\r\n` is rejected. -/
theorem c7_counterexample_invalid_utf8 :
    parse [43, 255, 13, 10] = .error "utf8" := by
  rw [show [43, 255, 13, 10] = 43 :: ([255] ++ 13 :: 10 :: ([] : List Nat)) from rfl,
    parse_head_plus]
  simp only [parse_simple, read_line_append_crlf [255] (by rfl) [], validUtf8_single_255]
  rw [if_neg (by simp)]

/-- C7 (amended): decoding a SimpleString does validate UTF-8: for every
byte sequence line containing no CRLF, parsing `+` ++ line ++ CRLF
succeeds with the line as payload exactly when the line is well-formed
UTF-8, and fails with a utf8 error otherwise. -/
theorem c7_simple_utf8_checked_amended (line : List Nat) (hno : noCRLFpair line = true) :
    parse (43 :: (line ++ [13, 10])) =
      (if validUtf8 line then .ok (.simple line, line.length + 3) else .error "utf8") := by
  have he : 43 :: (line ++ [13, 10]) = 43 :: (line ++ 13 :: 10 :: ([] : List Nat)) := by simp
  rw [he, parse_head_plus]
  simp only [parse_simple, read_line_append_crlf line hno []]

theorem c7_simple_utf8_checked_amended_witness :
    noCRLFpair [104, 105] = true ∧
    parse (43 :: ([104, 105] ++ [13, 10])) =
      (if validUtf8 [104, 105] then .ok (.simple [104, 105], [104, 105].length + 3)
       else .error "utf8") :=
  ⟨by rfl, c7_simple_utf8_checked_amended [104, 105] (by rfl)⟩

/-- Decode the first UTF-8 character of `l`: scalar value and byte count
(model of a step of `str::chars()`). -/
def utf8DecodeChar (l : List Nat) : Option (Nat × Nat) :=
  match utf8SeqLen l with
  | some k =>
    some ((if k = 1 then l.getD 0 0
           else if k = 2 then (l.getD 0 0 - 192) * 64 + (l.getD 1 0 - 128)
           else if k = 3 then
             ((l.getD 0 0 - 224) * 64 + (l.getD 1 0 - 128)) * 64 + (l.getD 2 0 - 128)
           else
             (((l.getD 0 0 - 240) * 64 + (l.getD 1 0 - 128)) * 64 + (l.getD 2 0 - 128)) * 64
               + (l.getD 3 0 - 128)), k)
  | none => none

theorem utf8DecodeChar_pos {l : List Nat} {cp k : Nat}
    (h : utf8DecodeChar l = some (cp, k)) : 1 ≤ k := by
  unfold utf8DecodeChar at h
  rcases hse : utf8SeqLen l with _ | m
  · rw [hse] at h; cases h
  · rw [hse] at h
    cases h
    exact utf8SeqLen_pos hse

/-- The characters (scalar values) of a UTF-8 byte sequence, model of
`str::chars()` on a Rust `String` (whose bytes are always well formed;
on ill-formed bytes, unreachable for real `String`s, one byte is
skipped). -/
def utf8Chars (l : List Nat) : List Nat :=
  match l with
  | [] => []
  | b :: rest =>
    match h : utf8DecodeChar (b :: rest) with
    | some (cp, k) => cp :: utf8Chars ((b :: rest).drop k)
    | none => utf8Chars ((b :: rest).drop 1)
termination_by l.length
decreasing_by
  · have := utf8DecodeChar_pos h
    simp only [List.length_drop, List.length_cons]
    omega
  · simp only [List.length_drop, List.length_cons]
    omega

/-- `Storage::glob_match_recursive` from `src/storage.rs`, on the
character (scalar value) lists: `*` (42) tries every split, `?` (63)
matches one character, anything else is literal. -/
def glob_match_recursive : List Nat → List Nat → Bool
  | [], t => t.isEmpty
  | 42 :: p, t => (List.range (t.length + 1)).any fun i => glob_match_recursive p (t.drop i)
  | 63 :: p, t =>
    match t with
    | [] => false
    | _ :: tr => glob_match_recursive p tr
  | c :: p, t =>
    match t with
    | [] => false
    | tc :: tr => tc == c && glob_match_recursive p tr
termination_by p _ => p.length

/-- `Storage::glob_match` from `src/storage.rs`: shortcut for the `*`
pattern, otherwise the recursive matcher over `chars()`. -/
def glob_match (pattern text : List Nat) : Bool :=
  if pattern = bytesOfAscii "*" then true
  else glob_match_recursive (utf8Chars pattern) (utf8Chars text)

/-- `Value` from `src/storage.rs`.  Strings are byte lists; the `HashSet`
and field `HashMap` are modelled as lists. -/
inductive Value where
  | str (s : List Nat)
  | list (l : List (List Nat))
  | set (s : List (List Nat))
  | hash (h : List (List Nat × List Nat))

/-- `Entry` from `src/storage.rs`; the monotonic `Instant` is a
millisecond count. -/
structure Entry where
  value : Value
  expires_at : Option Nat

/-- `Entry::is_expired`: `Instant::now() >= exp` with `now` explicit. -/
def Entry.is_expired (now : Nat) (e : Entry) : Bool :=
  match e.expires_at with
  | some exp => decide (exp ≤ now)
  | none => false

/-- The map behind `Storage`'s `RwLock<HashMap<String, Entry>>`,
modelled as an association list with unique keys (first match wins). -/
def Storage := List (List Nat × Entry)

/-- `HashMap::get`. -/
def mapGet (st : Storage) (k : List Nat) : Option Entry :=
  match st with
  | [] => none
  | (k2, e) :: rest => if k2 = k then some e else mapGet rest k

/-- `HashMap::insert` (replace in place or add). -/
def mapInsert (st : Storage) (k : List Nat) (e : Entry) : Storage :=
  match st with
  | [] => [(k, e)]
  | (k2, e2) :: rest => if k2 = k then (k, e) :: rest else (k2, e2) :: mapInsert rest k e

/-- `HashMap::remove` (drop the entry if present). -/
def mapRemove (st : Storage) (k : List Nat) : Storage :=
  match st with
  | [] => []
  | (k2, e2) :: rest => if k2 = k then rest else (k2, e2) :: mapRemove rest k

/-- `Storage::get` from `src/storage.rs`: present, not expired, and a
string, else `None`. -/
def Storage.get (st : Storage) (key : List Nat) (now : Nat) : Option (List Nat) :=
  match mapGet st key with
  | some entry =>
    if !entry.is_expired now then
      match entry.value with
      | .str s => some s
      | _ => none
    else none
  | none => none

/-- `Storage::set`: insert a fresh entry with `expires_at = None`. -/
def Storage.set (st : Storage) (key value : List Nat) : Storage :=
  mapInsert st key ⟨.str value, none⟩

/-- `Storage::set_with_expiry`: absolute expiry `now + expiry_ms`. -/
def Storage.set_with_expiry (st : Storage) (key value : List Nat) (expiry_ms now : Nat) :
    Storage :=
  mapInsert st key ⟨.str value, some (now + expiry_ms)⟩

/-- `Storage::ttl` (in milliseconds, with `Entry::ttl_ms` inlined):
-2 if missing or expired, -1 if no expiry, else the remaining time. -/
def Storage.ttl (st : Storage) (key : List Nat) (now : Nat) : Int :=
  match mapGet st key with
  | some entry =>
    if !entry.is_expired now then
      match entry.expires_at with
      | some exp => if exp ≤ now then -2 else Int.ofNat (exp - now)
      | none => -1
    else -2
  | none => -2

/-- `Storage::del`: remove each listed key, counting every key that was
physically present (no expiry check). -/
def Storage.del (st : Storage) (keys : List (List Nat)) : Nat × Storage :=
  match keys with
  | [] => (0, st)
  | k :: rest =>
    if (mapGet st k).isSome then
      let r := Storage.del (mapRemove st k) rest
      (r.1 + 1, r.2)
    else Storage.del st rest

/-- `Storage::incr_by` from `src/storage.rs`.  The current value is 0 for
an absent or expired key; a non-string is a wrong-type error; a
non-integer string is an out-of-range error; `checked_add` fails exactly
when the exact sum leaves the `i64` range, in which case the map is
untouched; otherwise the decimal text of the sum is stored with no
expiry. -/
def Storage.incr_by (st : Storage) (key : List Nat) (delta : Int) (now : Nat) :
    Except (List Nat) Int × Storage :=
  let cur : Except (List Nat) Int :=
    match mapGet st key with
    | some e =>
      if !e.is_expired now then
        match e.value with
        | .str s =>
          match parseI64 s with
          | some v => .ok v
          | none => .error (bytesOfAscii "ERR value is not an integer or out of range")
        | _ =>
          .error (bytesOfAscii "WRONGTYPE Operation against a key holding the wrong kind of value")
      else .ok 0
    | none => .ok 0
  match cur with
  | .error e => (.error e, st)
  | .ok current =>
    if current + delta < I64_MIN ∨ I64_MAX < current + delta then
      (.error (bytesOfAscii "ERR increment or decrement would overflow"), st)
    else
      (.ok (current + delta), mapInsert st key ⟨.str (intDecBytes (current + delta)), none⟩)

/-- `Storage::lrange` from `src/storage.rs`.  Note both negative-index
branches clamp from below at 0 (`(len + i).max(0)`), a nonnegative
`start` is clamped to `len` and a nonnegative `stop` to `len - 1`. -/
def Storage.lrange (st : Storage) (key : List Nat) (start stop : Int) (now : Nat) :
    Except (List Nat) (List (List Nat)) :=
  match mapGet st key with
  | some entry =>
    if !entry.is_expired now then
      match entry.value with
      | .list l =>
        let len : Int := l.length
        if len = 0 then .ok []
        else
          let s : Nat := if start < 0 then (max (len + start) 0).toNat else (min start len).toNat
          let e : Nat := if stop < 0 then (max (len + stop) 0).toNat else (min stop (len - 1)).toNat
          if s > e ∨ s ≥ l.length then .ok []
          else .ok ((l.drop s).take (e - s + 1))
      | _ =>
        .error (bytesOfAscii "WRONGTYPE Operation against a key holding the wrong kind of value")
    else .ok []
  | none => .ok []

/-- `Storage::keys`: all non-expired keys whose name matches the glob
pattern, in map order. -/
def Storage.keys (st : Storage) (pattern : List Nat) (now : Nat) : List (List Nat) :=
  ((st.filter fun kv => !kv.2.is_expired now).filter fun kv => glob_match pattern kv.1).map
    fun kv => kv.1

/-- ASCII uppercasing of the bytes of a string, model of Rust's
`str::to_uppercase` for the ASCII command names the dispatcher compares
against (the Unicode case mappings of non-ASCII characters are not
modelled; they can never produce an ASCII command name). -/
def asciiUpper (l : List Nat) : List Nat :=
  l.map fun b => if 97 ≤ b ∧ b ≤ 122 then b - 32 else b

/-- ASCII whitespace test, model of `char::is_whitespace` for the bytes
that occur in inline commands (non-ASCII Unicode whitespace is not
modelled). -/
def isWsByte (b : Nat) : Bool :=
  b == 32 || b == 9 || b == 10 || b == 11 || b == 12 || b == 13

/-- Split into maximal non-whitespace runs (model of
`str::split_whitespace`); `cur` is the current token, reversed. -/
def splitWsAux : List Nat → List Nat → List (List Nat)
  | [], cur => if cur = [] then [] else [cur.reverse]
  | b :: rest, cur =>
    if isWsByte b then
      if cur = [] then splitWsAux rest []
      else cur.reverse :: splitWsAux rest []
    else splitWsAux rest (b :: cur)

def splitWs (l : List Nat) : List (List Nat) := splitWsAux l []

/-- `Command` from `src/commands.rs`. -/
structure Command where
  name : List Nat
  args : List (List Nat)

/-- The `for item in items` loop of `Command::from_resp`: each item must
be a non-null bulk or a simple string. -/
def argsOfItems : List Resp → Except (List Nat) (List (List Nat))
  | [] => .ok []
  | .bulk (some s) :: rest => (argsOfItems rest).map fun l => s :: l
  | .simple s :: rest => (argsOfItems rest).map fun l => s :: l
  | _ :: _ => .error (bytesOfAscii "ERR invalid command format")

/-- `Command::from_resp` from `src/commands.rs`. -/
def Command.from_resp : Resp → Except (List Nat) Command
  | .array (some items) =>
    if items.isEmpty then .error (bytesOfAscii "ERR empty command")
    else
      match argsOfItems items with
      | .error e => .error e
      | .ok args =>
        match args with
        | [] => .error (bytesOfAscii "ERR empty command")
        | a0 :: rest => .ok ⟨asciiUpper a0, rest⟩
  | .simple s =>
    match splitWs s with
    | [] => .error (bytesOfAscii "ERR empty command")
    | p0 :: rest => .ok ⟨asciiUpper p0, rest⟩
  | _ => .error (bytesOfAscii "ERR invalid command format")

/-- The option-scanning `while` loop of `cmd_set` (`EX`, `PX`, `NX`,
`XX`, `GET`, `KEEPTTL`), returning `(expiry_ms, nx, xx, get)`.  `EX`
multiplies by 1000 in `u64`, which wraps at `2^64` (Rust would panic in
a debug build; the claims never reach that range). -/
def setOptsLoop : List (List Nat) → Option Nat → Bool → Bool → Bool →
    Except (List Nat) (Option Nat × Bool × Bool × Bool)
  | [], ex, nx, xx, g => .ok (ex, nx, xx, g)
  | a :: rest, ex, nx, xx, g =>
    if asciiUpper a = bytesOfAscii "EX" then
      match rest with
      | v :: rest2 =>
        match parseU64 v with
        | some secs => setOptsLoop rest2 (some (secs * 1000 % 2 ^ 64)) nx xx g
        | none => .error (bytesOfAscii "ERR value is not an integer or out of range")
      | [] => .error (bytesOfAscii "ERR syntax error")
    else if asciiUpper a = bytesOfAscii "PX" then
      match rest with
      | v :: rest2 =>
        match parseU64 v with
        | some ms => setOptsLoop rest2 (some ms) nx xx g
        | none => .error (bytesOfAscii "ERR value is not an integer or out of range")
      | [] => .error (bytesOfAscii "ERR syntax error")
    else if asciiUpper a = bytesOfAscii "NX" then setOptsLoop rest ex true xx g
    else if asciiUpper a = bytesOfAscii "XX" then setOptsLoop rest ex nx true g
    else if asciiUpper a = bytesOfAscii "GET" then setOptsLoop rest ex nx xx true
    else if asciiUpper a = bytesOfAscii "KEEPTTL" then setOptsLoop rest ex nx xx g
    else .error (bytesOfAscii "ERR syntax error")

/-- `cmd_set` from `src/commands.rs`, returning the reply and the map
after the call. -/
def cmd_set (cmd : Command) (st : Storage) (now : Nat) : Resp × Storage :=
  match cmd.args with
  | key :: value :: optArgs =>
    match setOptsLoop optArgs none false false false with
    | .error e => (.error e, st)
    | .ok (expiry_ms, nx, xx, g) =>
      let exists0 := (Storage.get st key now).isSome
      if nx && exists0 then
        (if g then
          match Storage.get st key now with
          | some v => .bulk (some v)
          | none => .bulk none
         else .bulk none, st)
      else if xx && !exists0 then
        (.bulk none, st)
      else
        let old_value := if g then Storage.get st key now else none
        let st2 :=
          match expiry_ms with
          | some ms => Storage.set_with_expiry st key value ms now
          | none => Storage.set st key value
        (if g then
          match old_value with
          | some v => .bulk (some v)
          | none => .bulk none
         else .simple (bytesOfAscii "OK"), st2)
  | _ => (.error (bytesOfAscii "ERR wrong number of arguments for 'set' command"), st)

/-- `cmd_keys` from `src/commands.rs`: the pattern defaults to `*` when
no argument is given. -/
def cmd_keys (cmd : Command) (st : Storage) (now : Nat) : Resp :=
  .array (some ((Storage.keys st (cmd.args.headD (bytesOfAscii "*")) now).map
    fun k => .bulk (some k)))

/-- Outcome of one pass of the inner loop of `handle_client` in
`src/main.rs` over the accumulated buffer. -/
inductive SessionOutcome where
  /-- The buffer is empty: leave the inner loop and read again. -/
  | idle : SessionOutcome
  /-- `parse` returned an error: break out and wait for more bytes
  (the code comments this branch "Incomplete data, wait for more"). -/
  | waitMore : SessionOutcome
  /-- The decode hit a panicking branch of `parse_bulk` or `parse_array`
  (a negative declared length below `-1`, marked by the model with a
  `panic:` message): in the source `parse` never returns, the spawned
  tokio task unwinds and the connection is dropped without any reply. -/
  | panicked : SessionOutcome
  /-- The command was `QUIT`: write the given encoded reply and return,
  closing the session. -/
  | closing (reply : List Nat) : SessionOutcome
  /-- A frame was decoded and drained; a reply is written and the loop
  continues with the remaining buffer.  `cmdOrErr` is the normalized
  command (whose `execute` reply depends on the shared storage and is not
  needed by the claims) or the protocol error that is sent back. -/
  | replyAndContinue (cmdOrErr : Except (List Nat) Command) (rest : List Nat) : SessionOutcome

/-- One pass of the inner loop of `handle_client` (`src/main.rs`):
if the buffer is empty, stop; otherwise try to decode one frame; on a
decode error that `parse` reports, break out and wait for more bytes
(the single `Err(_)` arm); on the panicking negative-length branches of
`parse_bulk`/`parse_array` — which the model marks with a `panic:`
message that real `parse` never returns as an `Err` — the task unwinds
and the connection drops with nothing written; on success drain the
consumed prefix, normalize, and either close (QUIT) or reply and
continue. -/
def sessionStep (accumulated : List Nat) : SessionOutcome :=
  if accumulated.isEmpty then .idle
  else
    match parse accumulated with
    | .ok (resp, consumed) =>
      let rest := accumulated.drop consumed
      match Command.from_resp resp with
      | .ok cmd =>
        if cmd.name = bytesOfAscii "QUIT" then
          .closing (encode_resp (.simple (bytesOfAscii "OK")))
        else .replyAndContinue (.ok cmd) rest
      | .error e => .replyAndContinue (.error e) rest
    | .error msg =>
      if msg = "panic: negative bulk length" ∨ msg = "panic: capacity overflow" then
        .panicked
      else .waitMore

theorem mapGet_mapInsert_self (st : Storage) (k : List Nat) (e : Entry) :
    mapGet (mapInsert st k e) k = some e := by
  induction st with
  | nil => simp [mapInsert, mapGet]
  | cons kv rest ih =>
    obtain ⟨k2, e2⟩ := kv
    by_cases hk : k2 = k
    · subst hk
      simp [mapInsert, mapGet]
    · simp [mapInsert, mapGet, hk, ih]

/-- On `$-2\r\n` the source panics (`start + len = 3 ≥ -2`: debug
overflows `start + len as usize`, release slices backwards), so the task
unwinds and the connection drops; the model marks the input and
`sessionStep` records the unwinding, not a wait. -/
theorem sessionStep_negative_bulk_panics :
    parse [36, 45, 50, 13, 10] = .error "panic: negative bulk length" ∧
    sessionStep [36, 45, 50, 13, 10] = .panicked := by
  have hp : parse [36, 45, 50, 13, 10] = .error "panic: negative bulk length" := by
    rw [parse_head_dollar]
    simp only [parse_bulk, show read_line [45, 50, 13, 10] = .ok ([45, 50], 4) from rfl,
      validUtf8_of_ascii [45, 50] (by decide), if_true,
      show parseI64 [45, 50] = some (-2) from by decide]
    norm_num
  refine ⟨hp, ?_⟩
  unfold sessionStep
  rw [if_neg (by simp)]
  simp only [hp]
  simp

/-- On `$-100\r\n` the source does not panic: `start + len = -93 ≤ -3`,
nothing overflows, the wrapped `end + 2` is astronomically large, the
guard fires and `parse` reports the incomplete-bulk error, which the
session's `Err(_)` arm answers by waiting for more bytes. -/
theorem sessionStep_deep_negative_bulk_waits :
    parse [36, 45, 49, 48, 48, 13, 10] = .error "incomplete bulk" ∧
    sessionStep [36, 45, 49, 48, 48, 13, 10] = .waitMore := by
  have hp : parse [36, 45, 49, 48, 48, 13, 10] = .error "incomplete bulk" := by
    rw [parse_head_dollar]
    simp only [parse_bulk,
      show read_line [45, 49, 48, 48, 13, 10] = .ok ([45, 49, 48, 48], 6) from rfl,
      validUtf8_of_ascii [45, 49, 48, 48] (by decide), if_true,
      show parseI64 [45, 49, 48, 48] = some (-100) from by decide]
    norm_num
  refine ⟨hp, ?_⟩
  unfold sessionStep
  rw [if_neg (by simp)]
  simp only [hp]
  rw [if_neg (by simp)]

/-- On `*-2\r\n` the source panics unconditionally: the declared count
is cast to a capacity of `2 ^ 64 - 2` and `Vec::with_capacity` panics on
capacity overflow before decoding any element; the task unwinds and the
connection drops. -/
theorem sessionStep_negative_array_panics :
    parse [42, 45, 50, 13, 10] = .error "panic: capacity overflow" ∧
    sessionStep [42, 45, 50, 13, 10] = .panicked := by
  have hp : parse [42, 45, 50, 13, 10] = .error "panic: capacity overflow" := by
    rw [parse_head_star]
    simp only [parse_array, show read_line [45, 50, 13, 10] = .ok ([45, 50], 4) from rfl,
      validUtf8_of_ascii [45, 50] (by decide), if_true,
      show parseI64 [45, 50] = some (-2) from by decide]
    norm_num
  refine ⟨hp, ?_⟩
  unfold sessionStep
  rw [if_neg (by simp)]
  simp only [hp]
  simp

/-- C3 counterexample: on the malformed input `!` (first byte none of
+ - : $ *) the decoder reports an error, and the session loop neither
writes an error reply nor closes: it waits for more bytes, contradicting
the claim that it replies and transitions to Closing. -/
theorem c3_counterexample_malformed_no_close :
    parse [33] = .error "unknown type" ∧ sessionStep [33] = .waitMore := by
  have hp : parse [33] = .error "unknown type" := parse_head_other 33 [] (by omega)
  refine ⟨hp, ?_⟩
  unfold sessionStep
  rw [if_neg (by simp)]
  simp only [hp]
  rw [if_neg (by simp)]

/-- C3 (amended): for every accumulated input whose first byte is none
of + - : $ *, the decoder reports the malformed-input error
`unknown type`, and the session loop neither writes an error reply nor
closes: its single `Err(_)` arm treats the reported error as incomplete
data and waits for more bytes.  (The negative-length branches of bulk
and array decoding never reach that arm: there the source panics, the
task unwinds and the connection drops without a reply.) -/
theorem c3_malformed_waits_amended (b : Nat) (rest : List Nat)
    (hb : b ≠ 43 ∧ b ≠ 45 ∧ b ≠ 58 ∧ b ≠ 36 ∧ b ≠ 42) :
    parse (b :: rest) = .error "unknown type" ∧
    sessionStep (b :: rest) = .waitMore := by
  have hp : parse (b :: rest) = .error "unknown type" := parse_head_other b rest hb
  refine ⟨hp, ?_⟩
  unfold sessionStep
  rw [if_neg (by simp)]
  simp only [hp]
  rw [if_neg (by simp)]

theorem c3_malformed_waits_amended_witness :
    ((33 : Nat) ≠ 43 ∧ (33 : Nat) ≠ 45 ∧ (33 : Nat) ≠ 58 ∧ (33 : Nat) ≠ 36 ∧
      (33 : Nat) ≠ 42) ∧
    (parse [33] = .error "unknown type" ∧ sessionStep [33] = .waitMore) :=
  ⟨by omega, c3_malformed_waits_amended 33 [] (by omega)⟩

/-- C4 counterexample: a logically-expired entry (expiry 5, now 10) is
still counted by DEL: the reply count is 1, not 0 as the claim (expired
entries are treated as absent) requires. -/
theorem c4_counterexample_del_expired :
    Entry.is_expired 10 ⟨.str [118], some 5⟩ = true ∧
    Storage.del [([107], ⟨.str [118], some 5⟩)] [[107]] = (1, []) := by
  constructor
  · rfl
  · rfl

/-- C4 (amended): DEL removes and counts every physically present entry,
including logically-expired ones: for any key present in the map,
whatever its expiry state at the current time, `del [k]` returns count 1
and the map with the entry removed. -/
theorem c4_del_counts_expired_amended (st : Storage) (k : List Nat) (e : Entry) (now : Nat)
    (hget : mapGet st k = some e) (hexp : e.is_expired now = true) :
    Storage.del st [k] = (1, mapRemove st k) := by
  simp only [Storage.del, hget, Option.isSome_some, if_true]

theorem c4_del_counts_expired_amended_witness :
    mapGet [([107], ⟨.str [118], some 5⟩)] [107] = some ⟨.str [118], some 5⟩ ∧
    Entry.is_expired 10 ⟨.str [118], some 5⟩ = true ∧
    Storage.del [([107], ⟨.str [118], some 5⟩)] [[107]] =
      (1, mapRemove [([107], ⟨.str [118], some 5⟩)] [107]) :=
  ⟨rfl, rfl, c4_del_counts_expired_amended _ _ _ 10 rfl rfl⟩

/-- C5: for every key currently holding an entry with `expires_at` set,
SET with no EX/PX option replies OK, stores the new string value with
`expires_at` cleared, and a subsequent TTL returns -1. -/
theorem c5_set_clears_expiry (st : Storage) (k v : List Nat) (e : Entry) (t now : Nat)
    (hget : mapGet st k = some e) (hexp : e.expires_at = some t) :
    cmd_set ⟨bytesOfAscii "SET", [k, v]⟩ st now =
      (.simple (bytesOfAscii "OK"), Storage.set st k v) ∧
    mapGet (Storage.set st k v) k = some ⟨.str v, none⟩ ∧
    Storage.ttl (Storage.set st k v) k now = -1 := by
  refine ⟨?_, ?_, ?_⟩
  · simp [cmd_set, setOptsLoop]
  · exact mapGet_mapInsert_self st k ⟨.str v, none⟩
  · simp only [Storage.ttl, Storage.set, mapGet_mapInsert_self]
    rfl

theorem c5_set_clears_expiry_witness :
    mapGet [([107], ⟨.str [97], some 3⟩)] [107] = some ⟨.str [97], some 3⟩ ∧
    (⟨.str [97], some 3⟩ : Entry).expires_at = some 3 ∧
    (cmd_set ⟨bytesOfAscii "SET", [[107], [98]]⟩ [([107], ⟨.str [97], some 3⟩)] 0 =
      (.simple (bytesOfAscii "OK"), Storage.set [([107], ⟨.str [97], some 3⟩)] [107] [98]) ∧
    mapGet (Storage.set [([107], ⟨.str [97], some 3⟩)] [107] [98]) [107] =
      some ⟨.str [98], none⟩ ∧
    Storage.ttl (Storage.set [([107], ⟨.str [97], some 3⟩)] [107] [98]) [107] 0 = -1) :=
  ⟨rfl, rfl, c5_set_clears_expiry _ _ _ _ 3 0 rfl rfl⟩

/-- C8: with the stored value parsing as the 64-bit integer v (hypotheses
mirror the code path: present, not expired, a string, parsed by the i64
reader, delta in range): when v+d is representable INCRBY returns v+d and
stores its decimal text with no expiry; when v+d leaves the i64 range it
fails with the overflow error and the map is unchanged; for an absent or
expired key the current value is 0, so the command returns d itself. -/
theorem c8_incrby_checked (st : Storage) (k : List Nat) (d : Int) (now : Nat)
    (hd : I64_MIN ≤ d ∧ d ≤ I64_MAX) :
    (∀ e s v, mapGet st k = some e → e.is_expired now = false → e.value = .str s →
      parseI64 s = some v →
      ((I64_MIN ≤ v + d ∧ v + d ≤ I64_MAX →
        Storage.incr_by st k d now =
          (.ok (v + d), mapInsert st k ⟨.str (intDecBytes (v + d)), none⟩)) ∧
       (v + d < I64_MIN ∨ I64_MAX < v + d →
        Storage.incr_by st k d now =
          (.error (bytesOfAscii "ERR increment or decrement would overflow"), st)))) ∧
    (mapGet st k = none →
      Storage.incr_by st k d now = (.ok d, mapInsert st k ⟨.str (intDecBytes d), none⟩)) ∧
    (∀ e, mapGet st k = some e → e.is_expired now = true →
      Storage.incr_by st k d now = (.ok d, mapInsert st k ⟨.str (intDecBytes d), none⟩)) := by
  refine ⟨?_, ?_, ?_⟩
  · intro e s v hget hexp hval hparse
    constructor
    · intro hin
      simp only [Storage.incr_by, hget, hexp, hval, hparse, Bool.not_false, if_true]
      rw [if_neg (by omega)]
    · intro hout
      simp only [Storage.incr_by, hget, hexp, hval, hparse, Bool.not_false, if_true]
      rw [if_pos (by omega)]
  · intro hget
    simp only [Storage.incr_by, hget]
    rw [if_neg (by omega)]
    simp
  · intro e hget hexp
    have hcond : ¬(0 + d < I64_MIN ∨ I64_MAX < 0 + d) := by omega
    simp [Storage.incr_by, hget, hexp, hcond]
    omega

theorem c8_incrby_checked_witness :
    (I64_MIN ≤ (5 : Int) ∧ (5 : Int) ≤ I64_MAX) ∧
    mapGet [([99], ⟨.str [49, 48], none⟩)] [99] = some ⟨.str [49, 48], none⟩ ∧
    Entry.is_expired 0 ⟨.str [49, 48], none⟩ = false ∧
    parseI64 [49, 48] = some 10 ∧
    (I64_MIN ≤ (10 : Int) + 5 ∧ (10 : Int) + 5 ≤ I64_MAX) ∧
    Storage.incr_by [([99], ⟨.str [49, 48], none⟩)] [99] 5 0 =
      (.ok ((10 : Int) + 5),
       mapInsert [([99], ⟨.str [49, 48], none⟩)] [99]
         ⟨.str (intDecBytes ((10 : Int) + 5)), none⟩) :=
  ⟨by decide, rfl, rfl, by decide, by decide,
    ((c8_incrby_checked [([99], ⟨.str [49, 48], none⟩)] [99] 5 0 (by decide)).1
      ⟨.str [49, 48], none⟩ [49, 48] 10 rfl rfl rfl (by decide)).1 (by decide)⟩

/-- C10 (implicit): KEYS with zero arguments is not an arity error: the
dispatcher defaults the pattern to `*`, giving exactly the reply of
`KEYS *`, an array of every non-expired key. -/
theorem c10_keys_no_args_default_star (st : Storage) (now : Nat) :
    cmd_keys ⟨bytesOfAscii "KEYS", []⟩ st now =
      cmd_keys ⟨bytesOfAscii "KEYS", [bytesOfAscii "*"]⟩ st now ∧
    cmd_keys ⟨bytesOfAscii "KEYS", []⟩ st now =
      .array (some ((st.filter fun kv => !kv.2.is_expired now).map
        fun kv => .bulk (some kv.1))) := by
  constructor
  · rfl
  · simp only [cmd_keys, Storage.keys, List.headD]
    rw [List.filter_eq_self.mpr (fun kv _ => by simp [glob_match])]
    rw [List.map_map]
    rfl

/-- C9 counterexample: on the one-element list ["a"], LRANGE 0 -2
returns ["a"], not the empty array: after normalization stop is -1,
so the claim's clamping (stop at most len-1, start ≥ 0 > stop) demands
an empty result, but the code clamps the negative normalized stop up to
0 and returns element 0. -/
theorem c9_counterexample_negative_stop_clamped :
    Entry.is_expired 0 ⟨.list [[97]], none⟩ = false ∧
    Storage.lrange [([108], ⟨.list [[97]], none⟩)] [108] 0 (-2) 0 = .ok [[97]] :=
  ⟨rfl, rfl⟩

/-- Modelled from the amended claim: LRANGE's inclusive sub-sequence
after normalizing negative indices from the tail and clamping both the
normalized start and the normalized stop from below at 0 (the code's
`(len + i).max(0)`), start from above at len and stop from above at
len-1; empty when start > stop or start ≥ len. -/
def lrangeSpec (vals : List (List Nat)) (start stop : Int) : List (List Nat) :=
  let len : Int := vals.length
  let s : Int := max (if start < 0 then len + start else start) 0
  let e : Int := max (min (if stop < 0 then len + stop else stop) (len - 1)) 0
  if s > e ∨ s ≥ len then []
  else (vals.drop s.toNat).take (e - s + 1).toNat

theorem take_drop_congr {α : Type} (l : List α) {a b c d : Nat} (h1 : a = c) (h2 : b = d) :
    (l.drop a).take b = (l.drop c).take d := by rw [h1, h2]

/-- C9 (amended): for every non-expired list key, LRANGE returns the
inclusive sub-sequence after normalizing negative indices from the tail
and clamping both normalized indices from below at 0 (so an out-of-range
negative stop is raised to index 0, not left below start), start from
above at len and stop at len-1, empty when start > stop or start ≥ len;
and LRANGE key 0 -1 returns exactly the whole list in logical order. -/
theorem c9_lrange_clamped_amended (st : Storage) (k : List Nat) (now : Nat) (e : Entry)
    (vals : List (List Nat)) (hget : mapGet st k = some e)
    (hexp : e.is_expired now = false) (hval : e.value = .list vals) :
    (∀ start stop : Int,
      Storage.lrange st k start stop now = .ok (lrangeSpec vals start stop)) ∧
    Storage.lrange st k 0 (-1) now = .ok vals := by
  have key : ∀ start stop : Int,
      Storage.lrange st k start stop now = .ok (lrangeSpec vals start stop) := by
    intro start stop
    simp only [Storage.lrange, hget, hexp, hval, Bool.not_false, if_true, lrangeSpec]
    split_ifs <;>
      first
      | rfl
      | (exfalso; omega)
      | exact congrArg Except.ok (take_drop_congr vals (by omega) (by omega))
  have hspec : lrangeSpec vals 0 (-1) = vals := by
    simp only [lrangeSpec]
    by_cases h0 : vals.length = 0
    · rw [if_pos (by omega)]
      exact (List.length_eq_zero.mp h0).symm
    · rw [if_neg (by omega)]
      have h1 : (max (if (0 : Int) < 0 then (vals.length : Int) + 0 else 0) 0).toNat = 0 := by
        omega
      have h2 : ((max (min (if (-1 : Int) < 0 then (vals.length : Int) + -1 else -1)
          ((vals.length : Int) - 1)) 0) -
          (max (if (0 : Int) < 0 then (vals.length : Int) + 0 else 0) 0) + 1).toNat =
          vals.length := by omega
      rw [h1, h2, List.drop_zero, List.take_length]
  exact ⟨key, by rw [key 0 (-1), hspec]⟩

theorem c9_lrange_clamped_amended_witness :
    mapGet [([108], ⟨.list [[97], [98], [99]], none⟩)] [108] =
      some ⟨.list [[97], [98], [99]], none⟩ ∧
    Entry.is_expired 0 ⟨.list [[97], [98], [99]], none⟩ = false ∧
    ((∀ start stop : Int,
      Storage.lrange [([108], ⟨.list [[97], [98], [99]], none⟩)] [108] start stop 0 =
        .ok (lrangeSpec [[97], [98], [99]] start stop)) ∧
     Storage.lrange [([108], ⟨.list [[97], [98], [99]], none⟩)] [108] 0 (-1) 0 =
       .ok [[97], [98], [99]]) :=
  ⟨rfl, rfl, c9_lrange_clamped_amended _ _ 0 _ [[97], [98], [99]] rfl rfl rfl⟩
